import Mathlib

/-!
Shallow embedding of the Global Player Statistics & Analytics Engine of the
Vanguard repository (src/players/services.py, src/players/statistics_service.py,
src/players/api_views.py, data model from src/players/models.py).

Conventions of the embedding:
* Python numbers (ints and floats) are modelled as `ℤ` respectively `ℚ`;
  float arithmetic is idealised as exact rational arithmetic.
* A Django queryset is modelled as the list of rows in database order.
* A Python dict with insertion-order semantics is modelled as an association
  list; `f"{n}"` string keys of histogram buckets are modelled by their
  integer value (the formatting map `n ↦ f"{n}"` is injective, and the source
  sorts the keys by `int(label)`, i.e. by that integer).
* A nullable value (`None`) is modelled with `Option`.
* `list.sort` / `sorted` (Python's stable sort) is modelled by
  `List.insertionSort`, which realises the same stable-sort specification.
-/

namespace Vanguard

/-! ### Data model (src/players/models.py) -/

/-- `DestinyCharacter` row: the fields consumed by the statistics engine. -/
structure DestinyCharacter where
  character_id : String
  class_type : ℕ
  light_level : ℤ
  minutes_played_total : ℤ
deriving DecidableEq

/-- `DestinyPlayer` row with its related characters, as the statistics code
reads it (`prefetch_related('characters')`). -/
structure DestinyPlayer where
  id : ℕ
  membership_id : String
  membership_type : ℕ
  display_name : String
  bungie_global_display_name : Option String
  bungie_global_display_name_code : Option String
  active_triumph_score : ℤ
  characters : List DestinyCharacter
deriving DecidableEq

/-- A logged-in site user as seen by the services layer: it only reads the
two Bungie membership fields. -/
structure SiteUser where
  bungie_membership_id : String
  bungie_membership_type : ℕ
deriving DecidableEq

/-- `DestinyPlayer.__str__`: the Bungie global name with code when both are
truthy (non-empty), otherwise `display_name`. -/
def playerStr (p : DestinyPlayer) : String :=
  match p.bungie_global_display_name, p.bungie_global_display_name_code with
  | some n, some c => if n ≠ "" ∧ c ≠ "" then n ++ "#" ++ c else p.display_name
  | _, _ => p.display_name

/-- `DestinyPlayer.get_platform_display`: the display string of
`MEMBERSHIP_TYPE_CHOICES`, defaulting to "Unknown". -/
def get_platform_display (membership_type : ℕ) : String :=
  if membership_type = 1 then "Xbox"
  else if membership_type = 2 then "PlayStation"
  else if membership_type = 3 then "Steam"
  else if membership_type = 4 then "Blizzard"
  else if membership_type = 5 then "Stadia"
  else if membership_type = 6 then "Epic Games"
  else if membership_type = 10 then "Demon"
  else if membership_type = 254 then "BungieNext"
  else "Unknown"

/-! ### Position calculator (src/players/services.py, calculate_z_score) -/

/-- `calculate_z_score(value, mean, stddev)`: returns `0` when
`stddev == 0 or stddev is None or mean is None`, else `(value - mean) / stddev`. -/
def calculate_z_score (value : ℚ) (mean stddev : Option ℚ) : ℚ :=
  match mean, stddev with
  | some m, some s => if s = 0 then 0 else (value - m) / s
  | _, _ => 0

/-! ### Histogram buckets (src/players/services.py, calculate_distribution_buckets) -/

/-- `int(value // bucket_size) * bucket_size`: the lower bound of the bucket
holding `value`.  Python's `//` on numbers is floor division; here it is
computed on the rational's numerator and denominator so that the definition
is executable by kernel reduction.  `bucketStart_eq` below identifies it
with `⌊value / bucket_size⌋ * bucket_size` for every positive width. -/
def bucketStart (value : ℚ) (bucket_size : ℤ) : ℤ :=
  value.num / ((value.den : ℤ) * bucket_size) * bucket_size

/-- `buckets[label] = buckets.get(label, 0) + 1` on an insertion-ordered dict:
increment the count of key `k`, appending `(k, 1)` when `k` is absent. -/
def dictIncr (d : List (ℤ × ℕ)) (k : ℤ) : List (ℤ × ℕ) :=
  match d with
  | [] => [(k, 1)]
  | (k0, c) :: rest => if k0 = k then (k0, c + 1) :: rest else (k0, c) :: dictIncr rest k

/-- Dict lookup on the association list (`buckets.get(label)`). -/
def dictGet (d : List (ℤ × ℕ)) (k : ℤ) : Option ℕ :=
  match d with
  | [] => none
  | (k0, c) :: rest => if k0 = k then some c else dictGet rest k

/-- Key order used by `sorted(buckets.items(), key=lambda x: int(x[0]))`. -/
def pairLE (a b : ℤ × ℕ) : Prop := a.1 ≤ b.1

instance : DecidableRel pairLE := fun a b => inferInstanceAs (Decidable (a.1 ≤ b.1))

instance : IsTotal (ℤ × ℕ) pairLE := ⟨fun a b => Int.le_total a.1 b.1⟩

instance : IsTrans (ℤ × ℕ) pairLE := ⟨fun _ _ _ hab hbc => le_trans hab hbc⟩

/-- The bucket dict after the `for value in values` loop. -/
def bucketFold (bucket_size : ℤ) (values : List ℚ) : List (ℤ × ℕ) :=
  values.foldl (fun d v => dictIncr d (bucketStart v bucket_size)) []

/-- `calculate_distribution_buckets(values, bucket_size)`: histogram of
`values` with the given bucket width, sorted ascending by bucket key;
`{}` for an empty input. -/
def calculate_distribution_buckets (values : List ℚ) (bucket_size : ℤ) :
    List (ℤ × ℕ) :=
  if values = [] then []
  else List.insertionSort pairLE (bucketFold bucket_size values)

/-! ### Extended descriptive statistics (src/players/services.py) -/

/-- `statistics.median` of the Python standard library, applied (as in the
source) to an already sorted list: the middle element for odd length, the
mean of the two middle elements for even length. -/
def pyMedian (sorted_values : List ℚ) : ℚ :=
  let n := sorted_values.length
  if n % 2 = 1 then sorted_values.getD (n / 2) 0
  else (sorted_values.getD (n / 2 - 1) 0 + sorted_values.getD (n / 2) 0) / 2

/-- The dict returned by `calculate_extended_statistics`. -/
structure ExtendedStatistics where
  median : Option ℚ
  q1 : Option ℚ
  q3 : Option ℚ
  min : Option ℚ
  max : Option ℚ
  skewness : Option ℚ
  kurtosis : Option ℚ
deriving DecidableEq

/-- `calculate_extended_statistics(values)`: all fields `None` when
`len(values) < 2`; otherwise median, floor-index quartiles
(`q1 = sorted[n // 4]`, `q3 = sorted[(3 * n) // 4]`, each with the source's
out-of-range fallback), min and max of the sorted list.  `skewness` and
`kurtosis` come from the optional scipy backend and are modelled as the
backend-absent (`None`) branch, which no claim depends on. -/
def calculate_extended_statistics (values : List ℚ) : ExtendedStatistics :=
  if values = [] ∨ values.length < 2 then
    ⟨none, none, none, none, none, none, none⟩
  else
    let sorted_values := List.insertionSort (· ≤ ·) values
    let n := sorted_values.length
    let median := pyMedian sorted_values
    let q1_idx := n / 4
    let q3_idx := 3 * n / 4
    let q1 := if q1_idx < n then sorted_values.getD q1_idx 0 else sorted_values.getD 0 0
    let q3 := if q3_idx < n then sorted_values.getD q3_idx 0 else sorted_values.getD (n - 1) 0
    ⟨some median, some q1, some q3,
      some (sorted_values.getD 0 0), some (sorted_values.getD (n - 1) 0),
      none, none⟩

/-! ### Leaderboard (src/players/services.py, get_leaderboard) -/

/-- One player's aggregate `Max('light_level')` over its characters
(`None` when the player has no characters, as Django's `Max` over an empty
set is `NULL`). -/
def playerMaxLight (p : DestinyPlayer) : Option ℤ :=
  (p.characters.map (fun c => c.light_level)).max?

/-- One player's aggregate `Sum('minutes_played_total')` over its characters
(the Django `Sum` of an empty set is `NULL`, modelled below by the explicit
empty-characters case at the call sites). -/
def playerTotalMinutes (p : DestinyPlayer) : ℤ :=
  (p.characters.map (fun c => c.minutes_played_total)).sum

/-- Python's `round` to the nearest integer (banker's rounding:
ties go to the even integer). -/
def pyRoundHalfEven (x : ℚ) : ℤ :=
  if x - ⌊x⌋ < 1 / 2 then ⌊x⌋
  else if 1 / 2 < x - ⌊x⌋ then ⌊x⌋ + 1
  else if ⌊x⌋ % 2 = 0 then ⌊x⌋ else ⌊x⌋ + 1

/-- Python's `round(x, 1)`: banker's rounding to one decimal place. -/
def pyRound1 (x : ℚ) : ℚ := (pyRoundHalfEven (10 * x) : ℚ) / 10

/-- A pre-rank leaderboard dict, as built inside `get_leaderboard`. -/
structure LeaderboardRow where
  player_id : ℕ
  membership_id : String
  membership_type : ℕ
  display_name : String
  platform : String
  value : ℚ
deriving DecidableEq

/-- A leaderboard dict after `data['rank'] = idx`. -/
structure LeaderboardEntry where
  rank : ℕ
  player_id : ℕ
  membership_id : String
  membership_type : ℕ
  display_name : String
  platform : String
  value : ℚ
deriving DecidableEq

/-- Attach a rank to a row. -/
def mkEntry (rank : ℕ) (row : LeaderboardRow) : LeaderboardEntry :=
  ⟨rank, row.player_id, row.membership_id, row.membership_type,
    row.display_name, row.platform, row.value⟩

/-- Descending-by-value order used by
`player_data.sort(key=lambda x: x['value'], reverse=True)` and by
`order_by('-active_triumph_score')`. -/
def rowGE (a b : LeaderboardRow) : Prop := b.value ≤ a.value

instance : DecidableRel rowGE := fun a b => inferInstanceAs (Decidable (b.value ≤ a.value))

instance : IsTotal LeaderboardRow rowGE := ⟨fun a b => le_total b.value a.value⟩

instance : IsTrans LeaderboardRow rowGE := ⟨fun _ _ _ hab hbc => le_trans hbc hab⟩

/-- The `category == 'light_level'` loop body: a row for each player whose
`Max('light_level')` aggregate is truthy and `> 0`. -/
def rowOfLight (p : DestinyPlayer) : Option LeaderboardRow :=
  match playerMaxLight p with
  | some m =>
    if 0 < m then
      some ⟨p.id, p.membership_id, p.membership_type, playerStr p,
        get_platform_display p.membership_type, (m : ℚ)⟩
    else none
  | none => none

/-- The `category == 'triumph_score'` queryset row:
players filtered to `active_triumph_score > 0`. -/
def rowOfTriumph (p : DestinyPlayer) : Option LeaderboardRow :=
  if 0 < p.active_triumph_score then
    some ⟨p.id, p.membership_id, p.membership_type, playerStr p,
      get_platform_display p.membership_type, (p.active_triumph_score : ℚ)⟩
  else none

/-- The `category == 'play_time'` loop body: a row for each player whose
`Sum('minutes_played_total')` aggregate is truthy and `> 0`; its value is
`round(total_minutes / 60.0, 1)` hours. -/
def rowOfPlayTime (p : DestinyPlayer) : Option LeaderboardRow :=
  if p.characters = [] then none
  else if 0 < playerTotalMinutes p then
    some ⟨p.id, p.membership_id, p.membership_type, playerStr p,
      get_platform_display p.membership_type,
      pyRound1 ((playerTotalMinutes p : ℚ) / 60)⟩
  else none

/-- `for idx, data in enumerate(player_data[:limit], 1): data['rank'] = idx`:
ranks 1, 2, … assigned to the first `limit` rows. -/
def assignRanks (rows : List LeaderboardRow) (limit : ℕ) : List LeaderboardEntry :=
  ((rows.take limit).enumFrom 1).map (fun ir => mkEntry ir.1 ir.2)

/-- `get_leaderboard(category, limit)` over the database `db` of players:
category-specific eligible rows, sorted descending by value (for
`triumph_score` the sort and the `[:limit]` slice happen at the storage
layer), then ranks `1..k` over the first `limit` rows.  Unknown categories
return `[]`. -/
def get_leaderboard (db : List DestinyPlayer) (category : String) (limit : ℕ) :
    List LeaderboardEntry :=
  if category = "light_level" then
    assignRanks (List.insertionSort rowGE (db.filterMap rowOfLight)) limit
  else if category = "triumph_score" then
    assignRanks ((List.insertionSort rowGE (db.filterMap rowOfTriumph)).take limit) limit
  else if category = "play_time" then
    assignRanks (List.insertionSort rowGE (db.filterMap rowOfPlayTime)) limit
  else []

/-! ### User rank (src/players/services.py, get_user_rank_in_leaderboard) -/

/-- `DestinyPlayer.objects.get(membership_id=..., membership_type=...)`,
modelled as the first matching row (`None` when absent, i.e. the
`DoesNotExist` branch). -/
def findPlayer (db : List DestinyPlayer) (membership_id : String)
    (membership_type : ℕ) : Option DestinyPlayer :=
  db.find? (fun p =>
    decide (p.membership_id = membership_id ∧ p.membership_type = membership_type))

/-- The `{rank, total, value}` dict returned by `get_user_rank_in_leaderboard`. -/
structure UserRankInfo where
  rank : ℕ
  total : ℕ
  value : ℚ
deriving DecidableEq

/-- `get_user_rank_in_leaderboard(user, category)`: finds the user's player
record, computes `get_leaderboard(category, limit=9999)`, and linearly scans
it for the entry with the player's `membership_id`. -/
def get_user_rank_in_leaderboard (db : List DestinyPlayer) (user : SiteUser)
    (category : String) : Option UserRankInfo :=
  match findPlayer db user.bungie_membership_id user.bungie_membership_type with
  | none => none
  | some player =>
    let full_leaderboard := get_leaderboard db category 9999
    match full_leaderboard.find?
        (fun e => decide (e.membership_id = player.membership_id)) with
    | some e => some ⟨e.rank, full_leaderboard.length, e.value⟩
    | none => none

/-- The per-entry source condition of the leaderboard specification: the
entry stems from a stored player whose derived scalar for the category is
positive, and carries that scalar as its value. -/
def entryFromPlayer (category : String) (p : DestinyPlayer)
    (e : LeaderboardEntry) : Prop :=
  e.player_id = p.id ∧
  (category = "light_level" →
    ∃ m, playerMaxLight p = some m ∧ 0 < m ∧ e.value = (m : ℚ)) ∧
  (category = "triumph_score" →
    0 < p.active_triumph_score ∧ e.value = (p.active_triumph_score : ℚ)) ∧
  (category = "play_time" →
    0 < playerTotalMinutes p ∧ e.value = pyRound1 ((playerTotalMinutes p : ℚ) / 60))

/-- The leaderboard specification of claim C8 for one database, category and
limit: rank fields are exactly `1, 2, …, k`, at most `limit` entries are
returned, values are sorted descending, and every entry comes from a stored
player with a positive derived value. -/
def LeaderboardClaimProps (db : List DestinyPlayer) (category : String)
    (limit : ℕ) : Prop :=
  (get_leaderboard db category limit).map LeaderboardEntry.rank =
    List.range' 1 (get_leaderboard db category limit).length ∧
  (get_leaderboard db category limit).length ≤ limit ∧
  List.Pairwise (fun a b : ℚ => b ≤ a)
    ((get_leaderboard db category limit).map LeaderboardEntry.value) ∧
  ∀ e ∈ get_leaderboard db category limit, ∃ p ∈ db, entryFromPlayer category p e

/-! ### ANOVA (src/players/statistics_service.py, class_light_level_anova) -/

/-- Valid (`light_level > 0`) light levels of the characters of one class. -/
def classLightLevels (class_type : ℕ) (chars : List DestinyCharacter) : List ℤ :=
  (chars.filter (fun c => decide (c.class_type = class_type ∧ 0 < c.light_level))).map
    (fun c => c.light_level)

/-- The per-class sample sizes reported under the `groups` key. -/
structure AnovaGroups where
  titan : ℕ
  hunter : ℕ
  warlock : ℕ
deriving DecidableEq

/-- The result dict of `class_light_level_anova`, restricted to the fields
the specification talks about: either a structured failure
(`available: False` with an error string and the per-group sample sizes) or
a success with the test statistics and degrees of freedom. -/
inductive AnovaResult where
  | unavailable (error : String) (groups : AnovaGroups)
  | success (f_statistic p_value : ℚ) (significant : Bool)
      (groups : AnovaGroups) (df_between df_within : ℤ)
deriving DecidableEq

/-- `class_light_level_anova()` over the character table `chars`.  The scipy
backend is modelled by the supplied `f_oneway` function (the claim assumes
the backend is importable, i.e. the `SCIPY_AVAILABLE = False` early return is
not taken).  Fewer than 2 valid values in any class yields the structured
failure naming the group sizes; otherwise the F statistic and p-value come
from `f_oneway`, `significant` is decided at `alpha = 0.05`, and the degrees
of freedom are `between = 2` and `within = N - 3`. -/
def class_light_level_anova (chars : List DestinyCharacter)
    (f_oneway : List ℤ → List ℤ → List ℤ → ℚ × ℚ) : AnovaResult :=
  let titan_levels := classLightLevels 0 chars
  let hunter_levels := classLightLevels 1 chars
  let warlock_levels := classLightLevels 2 chars
  if titan_levels.length < 2 ∨ hunter_levels.length < 2 ∨ warlock_levels.length < 2 then
    .unavailable "각 클래스에 최소 2개 이상의 데이터가 필요합니다."
      ⟨titan_levels.length, hunter_levels.length, warlock_levels.length⟩
  else
    let fp := f_oneway titan_levels hunter_levels warlock_levels
    .success fp.1 fp.2 (decide (fp.2 < mkRat 1 20))
      ⟨titan_levels.length, hunter_levels.length, warlock_levels.length⟩
      2 ((titan_levels.length : ℤ) + hunter_levels.length + warlock_levels.length - 3)

/-! ### Snapshot cache and the descriptive-statistics view
(src/players/models.py GlobalStatisticsCache,
src/players/api_views.py StatisticsDescriptiveAPIView.get) -/

/-- The singleton `GlobalStatisticsCache` row (pk=1).  `last_updated` is in
seconds; the statistics payload fields are representative of the stored
aggregates (the remaining columns are analogous and uninvolved in the
staleness logic). -/
structure GlobalStatisticsCache where
  last_updated : ℚ
  avg_light_level : ℚ
  stddev_light_level : ℚ
  light_level_distribution : List (ℤ × ℕ)
  total_players : ℕ
  total_characters : ℕ
deriving DecidableEq

/-- The (inline) staleness test of the view:
`(timezone.now() - cache.last_updated).total_seconds() > 3600`. -/
def cacheIsStale (cache : GlobalStatisticsCache) (now : ℚ) : Prop :=
  3600 < now - cache.last_updated

instance (cache : GlobalStatisticsCache) (now : ℚ) :
    Decidable (cacheIsStale cache now) :=
  inferInstanceAs (Decidable (3600 < now - cache.last_updated))

/-- Control flow of `StatisticsDescriptiveAPIView.get`: fetch the singleton
cache row; recompute via `refresh_global_statistics()` when the row is
missing (`DoesNotExist`) or stale.  `refreshResult` stands for the row
produced by `refresh_global_statistics()` (a database-wide recomputation
abstracted here); the boolean records whether that refresh was invoked. -/
def statisticsDescriptiveGet (cacheRow : Option GlobalStatisticsCache)
    (now : ℚ) (refreshResult : GlobalStatisticsCache) :
    GlobalStatisticsCache × Bool :=
  match cacheRow with
  | some cache =>
    if cacheIsStale cache now then (refreshResult, true) else (cache, false)
  | none => (refreshResult, true)

/-! ### Badges (src/players/services.py, _BASE_BADGES / get_badge_definitions) -/

/-- A static badge-catalog entry. -/
structure Badge where
  id : String
  name : String
  description : String
  icon : String
  color : String
  category : String
deriving DecidableEq

/-- The `_BASE_BADGES` constant, in dict insertion order. -/
def _BASE_BADGES : List Badge :=
  [⟨"brightest", "Brightest", "Light Level Top 10%", "⭐", "#FFD700", "rank"⟩,
   ⟨"veteran", "Veteran", "Light Level Top 25%", "⭐", "#4CAF50", "rank"⟩,
   ⟨"rising_star", "Rising Star", "Light Level Top 50%", "⭐", "#2196F3", "rank"⟩,
   ⟨"collector", "Collector", "Triumph Score Top 10%", "🏆", "#FFD700", "rank"⟩,
   ⟨"dedicated", "Dedicated", "Play Time Top 10%", "⏱️", "#FFD700", "rank"⟩,
   ⟨"trinity", "Trinity", "Own all 3 classes", "🔺", "#9C27B0", "achievement"⟩,
   ⟨"balanced", "Balanced", "All characters within 50 Light Level", "⚖️", "#00BCD4", "achievement"⟩]

/-- `get_cached_power_cap()`: the stored `current_power_cap` when the
singleton cache row exists, else the default 2000. -/
def get_cached_power_cap (storedPowerCap : Option ℤ) : ℤ :=
  match storedPowerCap with
  | some cap => cap
  | none => 2000

/-- `get_badge_definitions(power_cap=None)`: resolves the power cap (from the
argument or the cache) and returns a copy of `_BASE_BADGES`; the resolved
value is not used. -/
def get_badge_definitions (power_cap : Option ℤ) (storedPowerCap : Option ℤ) :
    List Badge :=
  let _resolved_power_cap :=
    match power_cap with
    | none => get_cached_power_cap storedPowerCap
    | some cap => cap
  _BASE_BADGES

/-! ### Concrete fixtures used by witnesses and counterexamples -/

/-- A stored player with no characters: it has a backing `DestinyPlayer`
record, yet no leaderboard value. -/
def exNoCharPlayer : DestinyPlayer :=
  ⟨1, "m1", 3, "Guardian", none, none, 0, []⟩

/-- The site user whose membership matches `exNoCharPlayer`. -/
def exUser1 : SiteUser := ⟨"m1", 3⟩

/-- A stored player with one Titan character at light level 100. -/
def exRankedPlayer : DestinyPlayer :=
  ⟨2, "m2", 3, "Guardian2", none, none, 5, [⟨"c1", 0, 100, 120⟩]⟩

/-- The site user whose membership matches `exRankedPlayer`. -/
def exUser2 : SiteUser := ⟨"m2", 3⟩

/-- Six characters, two valid ones per class. -/
def exAnovaChars : List DestinyCharacter :=
  [⟨"t1", 0, 100, 60⟩, ⟨"t2", 0, 110, 60⟩,
   ⟨"h1", 1, 105, 60⟩, ⟨"h2", 1, 115, 60⟩,
   ⟨"w1", 2, 99, 60⟩, ⟨"w2", 2, 101, 60⟩]

/-- A stand-in for `scipy.stats.f_oneway` returning F = 0, p = 1. -/
def exFOneway : List ℤ → List ℤ → List ℤ → ℚ × ℚ := fun _ _ _ => (0, 1)

/-- A cache row last updated at time 0. -/
def exCacheFresh : GlobalStatisticsCache := ⟨0, 0, 0, [], 0, 0⟩

/-- A distinct cache row standing for the output of a refresh. -/
def exCacheRefreshed : GlobalStatisticsCache := ⟨50, 1, 1, [], 1, 1⟩

/-! ### Theorems -/

/-- C3: `calculate_z_score` returns 0 whenever the standard deviation is zero
or missing or the mean is missing, and `(value - mean) / stddev` otherwise;
the definition is total (the Python function never divides by zero and never
raises), and in particular `z_score(100, 100, 0) = 0`. -/
theorem calculate_z_score_spec :
    (∀ v m s : ℚ, calculate_z_score v (some m) (some s) =
      if s = 0 then 0 else (v - m) / s) ∧
    (∀ v : ℚ, ∀ s : Option ℚ, calculate_z_score v none s = 0) ∧
    (∀ v : ℚ, ∀ m : Option ℚ, calculate_z_score v m none = 0) ∧
    calculate_z_score 100 (some 100) (some 0) = 0 := by
  refine ⟨fun v m s => rfl, fun v s => ?_, fun v m => ?_, by decide⟩
  · cases s <;> rfl
  · cases m <;> rfl

/-- C9: `get_leaderboard` on a category other than `light_level`,
`triumph_score` and `play_time` falls through to the `else` branch and
returns the empty list for every database and limit. -/
theorem get_leaderboard_unknown_category (db : List DestinyPlayer)
    (category : String) (limit : ℕ)
    (h1 : category ≠ "light_level") (h2 : category ≠ "triumph_score")
    (h3 : category ≠ "play_time") :
    get_leaderboard db category limit = [] := by
  simp [get_leaderboard, h1, h2, h3]

/-- Witness for `get_leaderboard_unknown_category` at category `"overall"`. -/
theorem get_leaderboard_unknown_category_witness :
    ("overall" ≠ "light_level" ∧ "overall" ≠ "triumph_score" ∧
      "overall" ≠ "play_time") ∧
    get_leaderboard [] "overall" 10 = [] :=
  ⟨⟨by decide, by decide, by decide⟩,
    get_leaderboard_unknown_category [] "overall" 10 (by decide) (by decide) (by decide)⟩

/-- C10: the badge catalog is independent of the `power_cap` argument and of
the cached power cap, and always equals the static seven-badge list
(brightest, veteran, rising_star, collector, dedicated, trinity, balanced)
whose descriptions are fixed strings. -/
theorem get_badge_definitions_independent_of_power_cap :
    (∀ p₁ c₁ p₂ c₂ : Option ℤ,
      get_badge_definitions p₁ c₁ = get_badge_definitions p₂ c₂) ∧
    (∀ p c : Option ℤ, get_badge_definitions p c = _BASE_BADGES) ∧
    _BASE_BADGES.map Badge.id =
      ["brightest", "veteran", "rising_star", "collector", "dedicated",
        "trinity", "balanced"] ∧
    _BASE_BADGES.length = 7 :=
  ⟨fun _ _ _ _ => rfl, fun _ _ => rfl, rfl, rfl⟩

/-- C7: the descriptive-statistics view invokes `refresh_global_statistics`
exactly when the cache row is missing or stale (age above 3600 seconds = 1
hour); a present, non-stale row is returned unchanged with no refresh. -/
theorem statistics_descriptive_get_spec (cacheRow : Option GlobalStatisticsCache)
    (now : ℚ) (refreshResult : GlobalStatisticsCache) :
    ((statisticsDescriptiveGet cacheRow now refreshResult).2 = true ↔
      cacheRow = none ∨
        ∃ cache, cacheRow = some cache ∧ 3600 < now - cache.last_updated) ∧
    (∀ cache, cacheRow = some cache → ¬ (3600 < now - cache.last_updated) →
      statisticsDescriptiveGet cacheRow now refreshResult = (cache, false)) := by
  constructor
  · cases cacheRow with
    | none => simp [statisticsDescriptiveGet]
    | some cache =>
      by_cases h : cacheIsStale cache now
      · have hrun : statisticsDescriptiveGet (some cache) now refreshResult =
            (refreshResult, true) := by
          simp [statisticsDescriptiveGet, h]
        rw [hrun]
        exact ⟨fun _ => Or.inr ⟨cache, rfl, h⟩, fun _ => rfl⟩
      · simp only [statisticsDescriptiveGet, if_neg h]
        constructor
        · intro hfalse
          exact absurd hfalse (by simp)
        · rintro (hnone | ⟨k, hk, hstale⟩)
          · exact absurd hnone (by simp)
          · rw [Option.some_inj] at hk
            exact absurd (hk ▸ hstale) h
  · rintro cache rfl hfresh
    simp [statisticsDescriptiveGet, cacheIsStale, hfresh]

/-- Witness for `statistics_descriptive_get_spec`: a row last updated at time
0 read at time 100 is fresh and returned without a refresh. -/
theorem statistics_descriptive_get_witness :
    ¬ (3600 < (100 : ℚ) - exCacheFresh.last_updated) ∧
    statisticsDescriptiveGet (some exCacheFresh) 100 exCacheRefreshed =
      (exCacheFresh, false) := by
  have hfresh : ¬ (3600 < (100 : ℚ) - exCacheFresh.last_updated) := by
    simp only [exCacheFresh, sub_zero]
    decide
  exact ⟨hfresh,
    (statistics_descriptive_get_spec (some exCacheFresh) 100 exCacheRefreshed).2
      exCacheFresh rfl hfresh⟩

/-- C5: for `n ≥ 2` values, the quartiles are the floor-index selections
`q1 = sorted[n // 4]` and `q3 = sorted[(3 * n) // 4]` from the sorted list
(the out-of-range fallbacks of the source never fire), and the median is the
standard median of the sorted sequence; on `[0, 1, 2, 3]` this gives
`q1 = 1`, not an interpolated quartile. -/
theorem calculate_extended_statistics_quartiles (values : List ℚ)
    (h : 2 ≤ values.length) :
    (calculate_extended_statistics values).q1 =
      some ((List.insertionSort (· ≤ ·) values).getD (values.length / 4) 0) ∧
    (calculate_extended_statistics values).q3 =
      some ((List.insertionSort (· ≤ ·) values).getD (3 * values.length / 4) 0) ∧
    (calculate_extended_statistics values).median =
      some (pyMedian (List.insertionSort (· ≤ ·) values)) ∧
    (calculate_extended_statistics ([0, 1, 2, 3] : List ℚ)).q1 = some 1 := by
  have hne : ¬ (values = [] ∨ values.length < 2) := by
    rintro (rfl | hlt)
    · simp at h
    · omega
  have hlen : (List.insertionSort (· ≤ ·) values).length = values.length :=
    (List.perm_insertionSort _ values).length_eq
  have hq1 : values.length / 4 < values.length := by omega
  have hq3 : 3 * values.length / 4 < values.length := by omega
  refine ⟨?_, ?_, ?_, by decide⟩ <;>
    simp only [calculate_extended_statistics, if_neg hne, hlen, if_pos hq1, if_pos hq3]

/-- Witness for `calculate_extended_statistics_quartiles` at `[3, 1, 2, 4]`. -/
theorem calculate_extended_statistics_quartiles_witness :
    2 ≤ ([3, 1, 2, 4] : List ℚ).length ∧
    ((calculate_extended_statistics [3, 1, 2, 4]).q1 =
      some ((List.insertionSort (· ≤ ·) ([3, 1, 2, 4] : List ℚ)).getD
        (([3, 1, 2, 4] : List ℚ).length / 4) 0) ∧
    (calculate_extended_statistics [3, 1, 2, 4]).q3 =
      some ((List.insertionSort (· ≤ ·) ([3, 1, 2, 4] : List ℚ)).getD
        (3 * ([3, 1, 2, 4] : List ℚ).length / 4) 0) ∧
    (calculate_extended_statistics [3, 1, 2, 4]).median =
      some (pyMedian (List.insertionSort (· ≤ ·) ([3, 1, 2, 4] : List ℚ))) ∧
    (calculate_extended_statistics ([0, 1, 2, 3] : List ℚ)).q1 = some 1) :=
  ⟨by decide, calculate_extended_statistics_quartiles [3, 1, 2, 4] (by decide)⟩

/-- Monotone indexing into a `≤`-sorted list of rationals. -/
theorem sorted_getD_le (l : List ℚ) (hs : List.Sorted (· ≤ ·) l) {i j : ℕ}
    (hij : i ≤ j) (hj : j < l.length) : l.getD i 0 ≤ l.getD j 0 := by
  have hi : i < l.length := lt_of_le_of_lt hij hj
  rw [List.getD_eq_getElem l 0 hi, List.getD_eq_getElem l 0 hj]
  have := hs.rel_get_of_le (a := ⟨i, hi⟩) (b := ⟨j, hj⟩) hij
  simpa using this

/-- C6: whenever at least one valid value enters the computation, the
populated snapshot fields are consistently ordered:
`min ≤ q1 ≤ median ≤ q3 ≤ max` (for a single value all fields are null and
the invariant holds vacuously). -/
theorem calculate_extended_statistics_order (values : List ℚ)
    (hlen : 1 ≤ values.length) :
    ∀ mn q1 med q3 mx : ℚ,
      (calculate_extended_statistics values).min = some mn →
      (calculate_extended_statistics values).q1 = some q1 →
      (calculate_extended_statistics values).median = some med →
      (calculate_extended_statistics values).q3 = some q3 →
      (calculate_extended_statistics values).max = some mx →
      mn ≤ q1 ∧ q1 ≤ med ∧ med ≤ q3 ∧ q3 ≤ mx := by
  intro mn q1 med q3 mx hmn hq1 hmed hq3 hmx
  by_cases hne : values = [] ∨ values.length < 2
  · rw [calculate_extended_statistics, if_pos hne] at hmn
    exact absurd hmn (by simp)
  · have h2 : 2 ≤ values.length := by
      rcases not_or.mp hne with ⟨hnil, hge⟩
      omega
    set S := List.insertionSort (· ≤ ·) values with hS
    have hsorted : List.Sorted (· ≤ ·) S := List.sorted_insertionSort _ values
    have hlenS : S.length = values.length := (List.perm_insertionSort _ values).length_eq
    set n := values.length with hn
    have hq1idx : n / 4 < n := by omega
    have hq3idx : 3 * n / 4 < n := by omega
    simp only [calculate_extended_statistics, if_neg hne, ← hS, hlenS, ← hn,
      if_pos hq1idx, if_pos hq3idx, Option.some_inj] at hmn hq1 hmed hq3 hmx
    subst hmn hq1 hq3 hmx hmed
    have hmono : ∀ {i j : ℕ}, i ≤ j → j < S.length → S.getD i 0 ≤ S.getD j 0 :=
      fun hij hj => sorted_getD_le S hsorted hij hj
    have hmin_le_q1 : S.getD 0 0 ≤ S.getD (n / 4) 0 :=
      hmono (Nat.zero_le _) (by omega)
    have hq3_le_max : S.getD (3 * n / 4) 0 ≤ S.getD (n - 1) 0 :=
      hmono (by omega) (by omega)
    have hmed_eq : pyMedian S =
        if n % 2 = 1 then S.getD (n / 2) 0
        else (S.getD (n / 2 - 1) 0 + S.getD (n / 2) 0) / 2 := by
      rw [pyMedian, hlenS]
    by_cases hpar : n % 2 = 1
    · rw [hmed_eq, if_pos hpar]
      exact ⟨hmin_le_q1, hmono (by omega) (by omega),
        hmono (by omega) (by omega), hq3_le_max⟩
    · rw [hmed_eq, if_neg hpar]
      have hab : S.getD (n / 2 - 1) 0 ≤ S.getD (n / 2) 0 :=
        hmono (by omega) (by omega)
      have hq1a : S.getD (n / 4) 0 ≤ S.getD (n / 2 - 1) 0 :=
        hmono (by omega) (by omega)
      have hbq3 : S.getD (n / 2) 0 ≤ S.getD (3 * n / 4) 0 :=
        hmono (by omega) (by omega)
      exact ⟨hmin_le_q1, by linarith, by linarith, hq3_le_max⟩

/-- Witness for `calculate_extended_statistics_order` at `[3, 1, 2]`:
`min = 1 ≤ q1 = 1 ≤ median = 2 ≤ q3 = 3 ≤ max = 3`. -/
theorem calculate_extended_statistics_order_witness :
    1 ≤ ([3, 1, 2] : List ℚ).length ∧
    ((1 : ℚ) ≤ 1 ∧ (1 : ℚ) ≤ 2 ∧ (2 : ℚ) ≤ 3 ∧ (3 : ℚ) ≤ 3) :=
  ⟨by decide,
    calculate_extended_statistics_order [3, 1, 2] (by decide) 1 1 2 3 3
      (by decide) (by decide) (by decide) (by decide) (by decide)⟩

/-- Sum of the counts of a bucket dict. -/
def sumCounts (d : List (ℤ × ℕ)) : ℕ := (d.map Prod.snd).sum

/-- `bucketStart` computes `⌊value / bucket_size⌋ * bucket_size` for every
positive bucket width: Python's `int(value // bucket_size) * bucket_size`. -/
theorem bucketStart_eq (v : ℚ) (w : ℤ) (hw : 0 < w) :
    bucketStart v w = ⌊v / (w : ℚ)⌋ * w := by
  have hd : (0 : ℤ) < (v.den : ℤ) * w :=
    mul_pos (Int.natCast_pos.mpr v.pos) hw
  have hcast : v / (w : ℚ) = (v.num : ℚ) / (((v.den : ℤ) * w : ℤ) : ℚ) := by
    conv_lhs => rw [← Rat.num_div_den v]
    rw [div_div]
    norm_cast
  have hfloor : ⌊v / (w : ℚ)⌋ = v.num / ((v.den : ℤ) * w) := by
    rw [hcast]
    lift ((v.den : ℤ) * w) to ℕ using hd.le with m hm
    exact_mod_cast Rat.floor_intCast_div_natCast v.num m
  rw [bucketStart, hfloor]

theorem dictGet_dictIncr_self (d : List (ℤ × ℕ)) (k : ℤ) :
    dictGet (dictIncr d k) k = some ((dictGet d k).getD 0 + 1) := by
  induction d with
  | nil => simp [dictIncr, dictGet]
  | cons p rest ih =>
    obtain ⟨k0, c⟩ := p
    by_cases h : k0 = k
    · subst h
      simp [dictIncr, dictGet]
    · simp [dictIncr, dictGet, h, ih]

theorem dictGet_dictIncr_ne (d : List (ℤ × ℕ)) (k k' : ℤ) (h : k' ≠ k) :
    dictGet (dictIncr d k) k' = dictGet d k' := by
  have hne : ¬ k = k' := fun he => h he.symm
  induction d with
  | nil => simp only [dictIncr, dictGet, if_neg hne]
  | cons p rest ih =>
    obtain ⟨k0, c⟩ := p
    by_cases h0 : k0 = k
    · subst h0
      simp only [dictIncr, if_pos rfl, dictGet, if_neg hne]
    · simp only [dictIncr, if_neg h0, dictGet]
      by_cases h1 : k0 = k'
      · simp only [if_pos h1]
      · simp only [if_neg h1, ih]

theorem dictIncr_keys (d : List (ℤ × ℕ)) (k : ℤ) :
    (dictIncr d k).map Prod.fst =
      if k ∈ d.map Prod.fst then d.map Prod.fst else d.map Prod.fst ++ [k] := by
  induction d with
  | nil => simp [dictIncr]
  | cons p rest ih =>
    obtain ⟨k0, c⟩ := p
    by_cases h : k0 = k
    · subst h
      simp [dictIncr]
    · have hne : ¬ k = k0 := fun he => h he.symm
      simp only [dictIncr, if_neg h, List.map_cons, List.mem_cons, hne, false_or, ih]
      by_cases hmem : k ∈ rest.map Prod.fst
      · simp [hmem]
      · simp [hmem]

theorem dictIncr_keys_nodup (d : List (ℤ × ℕ)) (k : ℤ)
    (h : (d.map Prod.fst).Nodup) : ((dictIncr d k).map Prod.fst).Nodup := by
  rw [dictIncr_keys]
  by_cases hmem : k ∈ d.map Prod.fst
  · simpa [hmem] using h
  · rw [if_neg hmem]
    exact List.Nodup.append h (List.nodup_singleton k)
      (fun a ha hak => hmem ((List.mem_singleton.mp hak) ▸ ha))

theorem dictGet_eq_some_iff_mem (d : List (ℤ × ℕ))
    (h : (d.map Prod.fst).Nodup) (k : ℤ) (c : ℕ) :
    dictGet d k = some c ↔ (k, c) ∈ d := by
  induction d with
  | nil => simp [dictGet]
  | cons p rest ih =>
    obtain ⟨k0, c0⟩ := p
    simp only [List.map_cons, List.nodup_cons] at h
    by_cases hk : k0 = k
    · subst hk
      rw [dictGet, if_pos rfl]
      constructor
      · intro hc
        have hcc : c0 = c := Option.some.inj hc
        subst hcc
        exact List.mem_cons_self _ _
      · intro hmem
        rcases List.mem_cons.mp hmem with he | hmem2
        · have hcc : c = c0 := congrArg Prod.snd he
          rw [hcc]
        · exact absurd (List.mem_map_of_mem Prod.fst hmem2) h.1
    · rw [dictGet, if_neg hk, ih h.2]
      constructor
      · exact fun hmem => List.mem_cons_of_mem _ hmem
      · intro hmem
        rcases List.mem_cons.mp hmem with he | hmem2
        · exact absurd (congrArg Prod.fst he).symm hk
        · exact hmem2

theorem dictIncr_pos (d : List (ℤ × ℕ)) (k : ℤ)
    (h : ∀ q ∈ d, 0 < q.2) : ∀ q ∈ dictIncr d k, 0 < q.2 := by
  induction d with
  | nil => simp [dictIncr]
  | cons p rest ih =>
    obtain ⟨k0, c0⟩ := p
    intro q hq
    by_cases h0 : k0 = k
    · subst h0
      rw [dictIncr, if_pos rfl] at hq
      rcases List.mem_cons.mp hq with rfl | hmem
      · simp
      · exact h q (List.mem_cons_of_mem _ hmem)
    · rw [dictIncr, if_neg h0] at hq
      rcases List.mem_cons.mp hq with rfl | hmem
      · exact h _ (List.mem_cons_self _ _)
      · exact ih (fun q hq => h q (List.mem_cons_of_mem _ hq)) q hmem

theorem sumCounts_dictIncr (d : List (ℤ × ℕ)) (k : ℤ) :
    sumCounts (dictIncr d k) = sumCounts d + 1 := by
  induction d with
  | nil => simp [dictIncr, sumCounts]
  | cons p rest ih =>
    obtain ⟨k0, c0⟩ := p
    by_cases h : k0 = k
    · subst h
      simp [dictIncr, sumCounts]
      omega
    · simp only [dictIncr, if_neg h, sumCounts, List.map_cons, List.sum_cons] at *
      omega

theorem bucketFold_getD (w : ℤ) (values : List ℚ) (d : List (ℤ × ℕ)) (k : ℤ) :
    (dictGet (values.foldl (fun d v => dictIncr d (bucketStart v w)) d) k).getD 0 =
      (dictGet d k).getD 0 +
        values.countP (fun v => decide (bucketStart v w = k)) := by
  induction values generalizing d with
  | nil => simp
  | cons v vs ih =>
    rw [List.foldl_cons, ih, List.countP_cons]
    by_cases h : bucketStart v w = k
    · rw [h, dictGet_dictIncr_self]
      simp [h]
      omega
    · rw [dictGet_dictIncr_ne _ _ _ (fun he => h he.symm)]
      simp [h]

theorem bucketFold_keys_nodup (w : ℤ) (values : List ℚ) (d : List (ℤ × ℕ))
    (h : (d.map Prod.fst).Nodup) :
    ((values.foldl (fun d v => dictIncr d (bucketStart v w)) d).map Prod.fst).Nodup := by
  induction values generalizing d with
  | nil => simpa using h
  | cons v vs ih => exact ih _ (dictIncr_keys_nodup _ _ h)

theorem bucketFold_pos (w : ℤ) (values : List ℚ) (d : List (ℤ × ℕ))
    (h : ∀ q ∈ d, 0 < q.2) :
    ∀ q ∈ values.foldl (fun d v => dictIncr d (bucketStart v w)) d, 0 < q.2 := by
  induction values generalizing d with
  | nil => simpa using h
  | cons v vs ih => exact ih _ (dictIncr_pos _ _ h)

theorem sumCounts_bucketFold (w : ℤ) (values : List ℚ) (d : List (ℤ × ℕ)) :
    sumCounts (values.foldl (fun d v => dictIncr d (bucketStart v w)) d) =
      sumCounts d + values.length := by
  induction values generalizing d with
  | nil => simp
  | cons v vs ih =>
    rw [List.foldl_cons, ih, sumCounts_dictIncr, List.length_cons]
    omega

/-- C1: for a non-empty value list and positive bucket width, every value
lands in the bucket keyed `⌊value / width⌋ * width`, each reported bucket
count is exactly the number of values mapping to that key (and positive),
the counts sum to the number of input values, the buckets are sorted
strictly ascending by key, and `[10, 20, 30, 40]` with width 10 yields
`{10: 1, 20: 1, 30: 1, 40: 1}`. -/
theorem calculate_distribution_buckets_spec (values : List ℚ) (bucket_size : ℤ)
    (hv : values ≠ []) (hw : 0 < bucket_size) :
    (∀ v ∈ values, ∃ c, (⌊v / (bucket_size : ℚ)⌋ * bucket_size, c) ∈
        calculate_distribution_buckets values bucket_size) ∧
    (∀ p ∈ calculate_distribution_buckets values bucket_size,
      p.2 = values.countP
        (fun v => decide (⌊v / (bucket_size : ℚ)⌋ * bucket_size = p.1)) ∧
      0 < p.2) ∧
    ((calculate_distribution_buckets values bucket_size).map Prod.snd).sum =
      values.length ∧
    List.Pairwise (fun p q : ℤ × ℕ => p.1 < q.1)
      (calculate_distribution_buckets values bucket_size) ∧
    calculate_distribution_buckets [10, 20, 30, 40] 10 =
      [(10, 1), (20, 1), (30, 1), (40, 1)] := by
  set B := bucketFold bucket_size values with hB
  have hres : calculate_distribution_buckets values bucket_size =
      List.insertionSort pairLE B := by
    rw [calculate_distribution_buckets, if_neg hv]
  have hperm : (List.insertionSort pairLE B).Perm B :=
    List.perm_insertionSort pairLE B
  have hnodup : (B.map Prod.fst).Nodup :=
    bucketFold_keys_nodup bucket_size values [] (by simp)
  have hgetD : ∀ k, (dictGet B k).getD 0 =
      values.countP (fun v => decide (bucketStart v bucket_size = k)) := by
    intro k
    have h := bucketFold_getD bucket_size values [] k
    rw [hB, bucketFold]
    simpa [dictGet] using h
  have hposB : ∀ q ∈ B, 0 < q.2 :=
    bucketFold_pos bucket_size values [] (by simp)
  have hcountP : ∀ k : ℤ,
      values.countP (fun v => decide (bucketStart v bucket_size = k)) =
        values.countP
          (fun v => decide (⌊v / (bucket_size : ℚ)⌋ * bucket_size = k)) := by
    intro k
    exact List.countP_congr
      (fun a _ => by simp only [bucketStart_eq a bucket_size hw])
  refine ⟨?_, ?_, ?_, ?_, by decide⟩
  · intro v hv'
    have hcount : 0 < values.countP
        (fun x => decide (bucketStart x bucket_size = bucketStart v bucket_size)) :=
      List.countP_pos_iff.mpr ⟨v, hv', by simp⟩
    obtain ⟨c, hc⟩ : ∃ c, dictGet B (bucketStart v bucket_size) = some c := by
      cases hq : dictGet B (bucketStart v bucket_size) with
      | none =>
        have := hgetD (bucketStart v bucket_size)
        rw [hq] at this
        simp only [Option.getD_none] at this
        omega
      | some c => exact ⟨c, rfl⟩
    refine ⟨c, ?_⟩
    rw [hres, ← bucketStart_eq v bucket_size hw]
    exact hperm.symm.subset ((dictGet_eq_some_iff_mem B hnodup _ c).mp hc)
  · intro p hp
    rw [hres] at hp
    have hpB : p ∈ B := hperm.subset hp
    have hsome : dictGet B p.1 = some p.2 := by
      refine (dictGet_eq_some_iff_mem B hnodup p.1 p.2).mpr ?_
      simpa using hpB
    refine ⟨?_, hposB p hpB⟩
    have hval := hgetD p.1
    rw [hsome] at hval
    simp only [Option.getD_some] at hval
    rw [hval, hcountP]
  · rw [hres]
    have hmapperm := hperm.map Prod.snd
    rw [hmapperm.sum_eq]
    have hsum := sumCounts_bucketFold bucket_size values []
    simpa [sumCounts] using hsum
  · rw [hres]
    have hsorted : List.Pairwise pairLE (List.insertionSort pairLE B) :=
      List.sorted_insertionSort pairLE B
    have hkeysnd : ((List.insertionSort pairLE B).map Prod.fst).Nodup :=
      ((hperm.map Prod.fst).nodup_iff).mpr hnodup
    have hkeysne : List.Pairwise (fun p q : ℤ × ℕ => p.1 ≠ q.1)
        (List.insertionSort pairLE B) := List.pairwise_map.mp hkeysnd
    exact (hsorted.and hkeysne).imp (fun hab => lt_of_le_of_ne hab.1 hab.2)

/-- Witness for `calculate_distribution_buckets_spec` at `[10, 20, 30, 40]`
with bucket width 10. -/
theorem calculate_distribution_buckets_spec_witness :
    (([10, 20, 30, 40] : List ℚ) ≠ [] ∧ (0 : ℤ) < 10) ∧
    calculate_distribution_buckets [10, 20, 30, 40] 10 =
      [(10, 1), (20, 1), (30, 1), (40, 1)] :=
  ⟨⟨by decide, by decide⟩,
    (calculate_distribution_buckets_spec [10, 20, 30, 40] 10
      (by decide) (by decide)).2.2.2.2⟩

theorem enumFrom_length {α : Type} (n : ℕ) (l : List α) :
    (List.enumFrom n l).length = l.length := by
  have h := congrArg List.length (List.enumFrom_map_snd n l)
  simpa using h

theorem assignRanks_length (rows : List LeaderboardRow) (limit : ℕ) :
    (assignRanks rows limit).length = (rows.take limit).length := by
  rw [assignRanks, List.length_map, enumFrom_length]

theorem assignRanks_map_rank (rows : List LeaderboardRow) (limit : ℕ) :
    (assignRanks rows limit).map LeaderboardEntry.rank =
      List.range' 1 (assignRanks rows limit).length := by
  rw [assignRanks_length, assignRanks, List.map_map]
  exact List.enumFrom_map_fst 1 (rows.take limit)

theorem assignRanks_length_le (rows : List LeaderboardRow) (limit : ℕ) :
    (assignRanks rows limit).length ≤ limit := by
  rw [assignRanks_length, List.length_take]
  exact min_le_left _ _

theorem assignRanks_map_value (rows : List LeaderboardRow) (limit : ℕ) :
    (assignRanks rows limit).map LeaderboardEntry.value =
      (rows.take limit).map LeaderboardRow.value := by
  rw [assignRanks, List.map_map]
  have hcomp : (LeaderboardEntry.value ∘ fun ir : ℕ × LeaderboardRow =>
      mkEntry ir.1 ir.2) = LeaderboardRow.value ∘ Prod.snd := rfl
  rw [hcomp, ← List.map_map, List.enumFrom_map_snd]

theorem mem_assignRanks (rows : List LeaderboardRow) (limit : ℕ)
    {e : LeaderboardEntry} (he : e ∈ assignRanks rows limit) :
    ∃ row ∈ rows, e.player_id = row.player_id ∧ e.value = row.value := by
  rw [assignRanks] at he
  obtain ⟨ir, hmem, hEq⟩ := List.mem_map.mp he
  have hrow : ir.2 ∈ rows.take limit := by
    have h2 := List.mem_map_of_mem Prod.snd hmem
    rwa [List.enumFrom_map_snd] at h2
  refine ⟨ir.2, (List.take_sublist _ _).subset hrow, ?_, ?_⟩
  · rw [← hEq]
    rfl
  · rw [← hEq]
    rfl

theorem assignRanks_take (rows : List LeaderboardRow) (limit : ℕ) :
    assignRanks (rows.take limit) limit = assignRanks rows limit := by
  rw [assignRanks, assignRanks, List.take_take, min_self]

theorem leaderboard_branch (rows0 : List LeaderboardRow) (limit : ℕ) :
    (assignRanks (List.insertionSort rowGE rows0) limit).map LeaderboardEntry.rank =
      List.range' 1 (assignRanks (List.insertionSort rowGE rows0) limit).length ∧
    (assignRanks (List.insertionSort rowGE rows0) limit).length ≤ limit ∧
    List.Pairwise (fun a b : ℚ => b ≤ a)
      ((assignRanks (List.insertionSort rowGE rows0) limit).map LeaderboardEntry.value) ∧
    ∀ e ∈ assignRanks (List.insertionSort rowGE rows0) limit,
      ∃ row ∈ rows0, e.player_id = row.player_id ∧ e.value = row.value := by
  refine ⟨assignRanks_map_rank _ _, assignRanks_length_le _ _, ?_, ?_⟩
  · rw [assignRanks_map_value]
    have hsorted : List.Pairwise rowGE (List.insertionSort rowGE rows0) :=
      List.sorted_insertionSort rowGE rows0
    have htake : List.Pairwise rowGE ((List.insertionSort rowGE rows0).take limit) :=
      List.Pairwise.sublist (List.take_sublist _ _) hsorted
    exact List.pairwise_map.mpr (htake.imp (fun hab => hab))
  · intro e he
    obtain ⟨row, hrow, hpid, hval⟩ := mem_assignRanks _ _ he
    exact ⟨row, (List.perm_insertionSort rowGE rows0).subset hrow, hpid, hval⟩

theorem rowOfLight_inv {p : DestinyPlayer} {row : LeaderboardRow}
    (h : rowOfLight p = some row) :
    row.player_id = p.id ∧
      ∃ m, playerMaxLight p = some m ∧ 0 < m ∧ row.value = (m : ℚ) := by
  rw [rowOfLight] at h
  cases hm : playerMaxLight p with
  | none =>
    rw [hm] at h
    exact absurd h (by simp)
  | some m =>
    rw [hm] at h
    dsimp only at h
    by_cases hpos : 0 < m
    · rw [if_pos hpos, Option.some_inj] at h
      subst h
      exact ⟨rfl, m, rfl, hpos, rfl⟩
    · rw [if_neg hpos] at h
      exact absurd h (by simp)

theorem rowOfTriumph_inv {p : DestinyPlayer} {row : LeaderboardRow}
    (h : rowOfTriumph p = some row) :
    row.player_id = p.id ∧ 0 < p.active_triumph_score ∧
      row.value = (p.active_triumph_score : ℚ) := by
  rw [rowOfTriumph] at h
  by_cases hpos : 0 < p.active_triumph_score
  · rw [if_pos hpos, Option.some_inj] at h
    subst h
    exact ⟨rfl, hpos, rfl⟩
  · rw [if_neg hpos] at h
    exact absurd h (by simp)

theorem rowOfPlayTime_inv {p : DestinyPlayer} {row : LeaderboardRow}
    (h : rowOfPlayTime p = some row) :
    row.player_id = p.id ∧ 0 < playerTotalMinutes p ∧
      row.value = pyRound1 ((playerTotalMinutes p : ℚ) / 60) := by
  rw [rowOfPlayTime] at h
  by_cases hchars : p.characters = []
  · rw [if_pos hchars] at h
    exact absurd h (by simp)
  · rw [if_neg hchars] at h
    by_cases hpos : 0 < playerTotalMinutes p
    · rw [if_pos hpos, Option.some_inj] at h
      subst h
      exact ⟨rfl, hpos, rfl⟩
    · rw [if_neg hpos] at h
      exact absurd h (by simp)

/-- C8: for every valid category and every limit, the leaderboard keeps only
players with a positive derived value, sorts descending by value, and
returns at most `limit` entries ranked exactly `1, 2, …, k`. -/
theorem get_leaderboard_spec (db : List DestinyPlayer) (category : String)
    (limit : ℕ)
    (hcat : category = "light_level" ∨ category = "triumph_score" ∨
      category = "play_time") :
    LeaderboardClaimProps db category limit := by
  rcases hcat with rfl | rfl | rfl
  · have hdef : get_leaderboard db "light_level" limit =
        assignRanks (List.insertionSort rowGE (db.filterMap rowOfLight)) limit := by
      rw [get_leaderboard, if_pos rfl]
    obtain ⟨h1, h2, h3, h4⟩ := leaderboard_branch (db.filterMap rowOfLight) limit
    rw [LeaderboardClaimProps, hdef]
    refine ⟨h1, h2, h3, ?_⟩
    intro e he
    obtain ⟨row, hrowmem, hpid, hval⟩ := h4 e he
    obtain ⟨p, hp, hrow⟩ := List.mem_filterMap.mp hrowmem
    obtain ⟨hrid, m, hm, hmpos, hrval⟩ := rowOfLight_inv hrow
    exact ⟨p, hp, hpid.trans hrid,
      fun _ => ⟨m, hm, hmpos, hval.trans hrval⟩,
      fun habs => absurd habs (by decide),
      fun habs => absurd habs (by decide)⟩
  · have hdef : get_leaderboard db "triumph_score" limit =
        assignRanks (List.insertionSort rowGE (db.filterMap rowOfTriumph)) limit := by
      rw [get_leaderboard, if_neg (by decide), if_pos rfl, assignRanks_take]
    obtain ⟨h1, h2, h3, h4⟩ := leaderboard_branch (db.filterMap rowOfTriumph) limit
    rw [LeaderboardClaimProps, hdef]
    refine ⟨h1, h2, h3, ?_⟩
    intro e he
    obtain ⟨row, hrowmem, hpid, hval⟩ := h4 e he
    obtain ⟨p, hp, hrow⟩ := List.mem_filterMap.mp hrowmem
    obtain ⟨hrid, hspos, hrval⟩ := rowOfTriumph_inv hrow
    exact ⟨p, hp, hpid.trans hrid,
      fun habs => absurd habs (by decide),
      fun _ => ⟨hspos, hval.trans hrval⟩,
      fun habs => absurd habs (by decide)⟩
  · have hdef : get_leaderboard db "play_time" limit =
        assignRanks (List.insertionSort rowGE (db.filterMap rowOfPlayTime)) limit := by
      rw [get_leaderboard, if_neg (by decide), if_neg (by decide), if_pos rfl]
    obtain ⟨h1, h2, h3, h4⟩ := leaderboard_branch (db.filterMap rowOfPlayTime) limit
    rw [LeaderboardClaimProps, hdef]
    refine ⟨h1, h2, h3, ?_⟩
    intro e he
    obtain ⟨row, hrowmem, hpid, hval⟩ := h4 e he
    obtain ⟨p, hp, hrow⟩ := List.mem_filterMap.mp hrowmem
    obtain ⟨hrid, htpos, hrval⟩ := rowOfPlayTime_inv hrow
    exact ⟨p, hp, hpid.trans hrid,
      fun habs => absurd habs (by decide),
      fun habs => absurd habs (by decide),
      fun _ => ⟨htpos, hval.trans hrval⟩⟩

/-- Witness for `get_leaderboard_spec`: the light-level leaderboard over a
one-player database with limit 10. -/
theorem get_leaderboard_spec_witness :
    ("light_level" = "light_level" ∨ "light_level" = "triumph_score" ∨
      "light_level" = "play_time") ∧
    LeaderboardClaimProps [exRankedPlayer] "light_level" 10 :=
  ⟨Or.inl rfl, get_leaderboard_spec [exRankedPlayer] "light_level" 10 (Or.inl rfl)⟩

theorem get_leaderboard_map_rank (db : List DestinyPlayer) (category : String)
    (limit : ℕ) :
    (get_leaderboard db category limit).map LeaderboardEntry.rank =
      List.range' 1 (get_leaderboard db category limit).length := by
  by_cases h1 : category = "light_level"
  · subst h1
    rw [get_leaderboard, if_pos rfl]
    exact assignRanks_map_rank _ _
  · by_cases h2 : category = "triumph_score"
    · subst h2
      rw [get_leaderboard, if_neg (by decide), if_pos rfl]
      exact assignRanks_map_rank _ _
    · by_cases h3 : category = "play_time"
      · subst h3
        rw [get_leaderboard, if_neg (by decide), if_neg (by decide), if_pos rfl]
        exact assignRanks_map_rank _ _
      · rw [get_leaderboard, if_neg h1, if_neg h2, if_neg h3]
        rfl

theorem get_leaderboard_length_le (db : List DestinyPlayer) (category : String)
    (limit : ℕ) : (get_leaderboard db category limit).length ≤ limit := by
  by_cases h1 : category = "light_level"
  · subst h1
    rw [get_leaderboard, if_pos rfl]
    exact assignRanks_length_le _ _
  · by_cases h2 : category = "triumph_score"
    · subst h2
      rw [get_leaderboard, if_neg (by decide), if_pos rfl]
      exact assignRanks_length_le _ _
    · by_cases h3 : category = "play_time"
      · subst h3
        rw [get_leaderboard, if_neg (by decide), if_neg (by decide), if_pos rfl]
        exact assignRanks_length_le _ _
      · rw [get_leaderboard, if_neg h1, if_neg h2, if_neg h3]
        exact Nat.zero_le _

/-- C2 counterexample: `exNoCharPlayer` is a backing player record matching
`exUser1`, yet `get_user_rank_in_leaderboard` returns null (the player has
no characters, hence no leaderboard entry), so "null exactly when the user
has no backing player record" is false as stated. -/
theorem get_user_rank_counterexample :
    get_user_rank_in_leaderboard [exNoCharPlayer] exUser1 "light_level" = none ∧
    findPlayer [exNoCharPlayer] exUser1.bungie_membership_id
      exUser1.bungie_membership_type = some exNoCharPlayer :=
  ⟨by decide, by decide⟩

/-- C2 (amended): `get_user_rank_in_leaderboard` scans the leaderboard
computed with `limit = 9999` (hence at most 9999 entries, the full ranking
only for populations of at most 9999 ranked players); it returns a result
exactly when the user has a backing player record *and* that player appears
in this leaderboard, and then `total` is the length of this leaderboard and
`{rank, value}` come from the player's entry, with `1 ≤ rank ≤ total`. -/
theorem get_user_rank_amended (db : List DestinyPlayer) (user : SiteUser)
    (category : String) :
    ((get_user_rank_in_leaderboard db user category).isSome ↔
      ∃ p, findPlayer db user.bungie_membership_id user.bungie_membership_type =
          some p ∧
        ∃ e ∈ get_leaderboard db category 9999,
          e.membership_id = p.membership_id) ∧
    (∀ info, get_user_rank_in_leaderboard db user category = some info →
      info.total = (get_leaderboard db category 9999).length ∧
      info.total ≤ 9999 ∧ 1 ≤ info.rank ∧ info.rank ≤ info.total ∧
      ∃ e ∈ get_leaderboard db category 9999,
        info.rank = e.rank ∧ info.value = e.value) := by
  cases hfp : findPlayer db user.bungie_membership_id user.bungie_membership_type with
  | none =>
    constructor
    · simp only [get_user_rank_in_leaderboard, hfp]
      constructor
      · intro habs
        exact absurd habs (by simp)
      · rintro ⟨p, hp, _⟩
        exact absurd hp (by simp)
    · intro info habs
      simp only [get_user_rank_in_leaderboard, hfp] at habs
      exact absurd habs (by simp)
  | some player =>
    cases hfind : (get_leaderboard db category 9999).find?
        (fun e => decide (e.membership_id = player.membership_id)) with
    | none =>
      constructor
      · simp only [get_user_rank_in_leaderboard, hfp, hfind]
        constructor
        · intro habs
          exact absurd habs (by simp)
        · rintro ⟨p, hp, e, he, hmid⟩
          rw [Option.some_inj] at hp
          subst hp
          have hnot := List.find?_eq_none.mp hfind e he
          simp only [decide_eq_true_eq] at hnot
          exact absurd hmid hnot
      · intro info habs
        simp only [get_user_rank_in_leaderboard, hfp, hfind] at habs
        exact absurd habs (by simp)
    | some e =>
      constructor
      · simp only [get_user_rank_in_leaderboard, hfp, hfind]
        have hpe := List.find?_some hfind
        simp only [decide_eq_true_eq] at hpe
        exact ⟨fun _ => ⟨player, rfl, e, List.mem_of_find?_eq_some hfind, hpe⟩,
          fun _ => rfl⟩
      · intro info hinfo
        simp only [get_user_rank_in_leaderboard, hfp, hfind,
          Option.some_inj] at hinfo
        subst hinfo
        have hmem := List.mem_of_find?_eq_some hfind
        have h1 : e.rank ∈ (get_leaderboard db category 9999).map
            LeaderboardEntry.rank := List.mem_map_of_mem _ hmem
        rw [get_leaderboard_map_rank] at h1
        obtain ⟨i, hi, hEq⟩ := List.mem_range'.mp h1
        exact ⟨rfl, get_leaderboard_length_le db category 9999,
          show 1 ≤ e.rank by omega,
          show e.rank ≤ (get_leaderboard db category 9999).length by omega,
          e, hmem, rfl, rfl⟩

/-- Witness for `get_user_rank_amended`: the matching user of a one-player
database is ranked 1 of 1 with value 100. -/
theorem get_user_rank_amended_witness :
    get_user_rank_in_leaderboard [exRankedPlayer] exUser2 "light_level" =
      some ⟨1, 1, 100⟩ ∧
    ((⟨1, 1, 100⟩ : UserRankInfo).total =
        (get_leaderboard [exRankedPlayer] "light_level" 9999).length ∧
      (⟨1, 1, 100⟩ : UserRankInfo).total ≤ 9999 ∧
      1 ≤ (⟨1, 1, 100⟩ : UserRankInfo).rank ∧
      (⟨1, 1, 100⟩ : UserRankInfo).rank ≤ (⟨1, 1, 100⟩ : UserRankInfo).total ∧
      ∃ e ∈ get_leaderboard [exRankedPlayer] "light_level" 9999,
        (⟨1, 1, 100⟩ : UserRankInfo).rank = e.rank ∧
        (⟨1, 1, 100⟩ : UserRankInfo).value = e.value) :=
  ⟨by decide,
    (get_user_rank_amended [exRankedPlayer] exUser2 "light_level").2
      ⟨1, 1, 100⟩ (by decide)⟩

/-- C4: with the numeric backend available, `class_light_level_anova`
returns the structured failure (never an exception, with the per-group
sample sizes) exactly when some class partition has fewer than 2 valid
(power level > 0) values; on success the degrees of freedom are
`between = 2` and `within = N - 3` for `N` the total valid sample size, and
the per-group sample sizes are reported. -/
theorem class_light_level_anova_spec (chars : List DestinyCharacter)
    (f_oneway : List ℤ → List ℤ → List ℤ → ℚ × ℚ) :
    ((∃ err g, class_light_level_anova chars f_oneway =
        AnovaResult.unavailable err g) ↔
      (classLightLevels 0 chars).length < 2 ∨
        (classLightLevels 1 chars).length < 2 ∨
        (classLightLevels 2 chars).length < 2) ∧
    (∀ err g, class_light_level_anova chars f_oneway =
        AnovaResult.unavailable err g →
      g = ⟨(classLightLevels 0 chars).length, (classLightLevels 1 chars).length,
        (classLightLevels 2 chars).length⟩) ∧
    (∀ f p s g dfb dfw, class_light_level_anova chars f_oneway =
        AnovaResult.success f p s g dfb dfw →
      dfb = 2 ∧
      dfw = ((classLightLevels 0 chars).length + (classLightLevels 1 chars).length +
        (classLightLevels 2 chars).length : ℤ) - 3 ∧
      g = ⟨(classLightLevels 0 chars).length, (classLightLevels 1 chars).length,
        (classLightLevels 2 chars).length⟩) := by
  by_cases hguard : (classLightLevels 0 chars).length < 2 ∨
      (classLightLevels 1 chars).length < 2 ∨ (classLightLevels 2 chars).length < 2
  · have hrun : class_light_level_anova chars f_oneway =
        AnovaResult.unavailable "각 클래스에 최소 2개 이상의 데이터가 필요합니다."
          ⟨(classLightLevels 0 chars).length, (classLightLevels 1 chars).length,
            (classLightLevels 2 chars).length⟩ := by
      rw [class_light_level_anova, if_pos hguard]
    refine ⟨⟨fun _ => hguard, fun _ => ⟨_, _, hrun⟩⟩, ?_, ?_⟩
    · intro err g hg
      rw [hrun] at hg
      exact (AnovaResult.unavailable.injEq .. ▸ hg).2.symm
    · intro f p s g dfb dfw habs
      rw [hrun] at habs
      exact absurd habs (by simp)
  · have hrun : class_light_level_anova chars f_oneway =
        AnovaResult.success
          (f_oneway (classLightLevels 0 chars) (classLightLevels 1 chars)
            (classLightLevels 2 chars)).1
          (f_oneway (classLightLevels 0 chars) (classLightLevels 1 chars)
            (classLightLevels 2 chars)).2
          (decide ((f_oneway (classLightLevels 0 chars) (classLightLevels 1 chars)
            (classLightLevels 2 chars)).2 < mkRat 1 20))
          ⟨(classLightLevels 0 chars).length, (classLightLevels 1 chars).length,
            (classLightLevels 2 chars).length⟩
          2
          (((classLightLevels 0 chars).length : ℤ) +
            (classLightLevels 1 chars).length + (classLightLevels 2 chars).length - 3) := by
      rw [class_light_level_anova, if_neg hguard]
    refine ⟨⟨?_, fun habs => absurd habs hguard⟩, ?_, ?_⟩
    · rintro ⟨err, g, habs⟩
      rw [hrun] at habs
      exact absurd habs (by simp)
    · intro err g habs
      rw [hrun] at habs
      exact absurd habs (by simp)
    · intro f p s g dfb dfw hs
      rw [hrun] at hs
      have h := AnovaResult.success.injEq .. ▸ hs
      exact ⟨h.2.2.2.2.1.symm, h.2.2.2.2.2.symm, h.2.2.2.1.symm⟩

/-- Witness for `class_light_level_anova_spec`: six characters, two valid per
class, with a backend stub returning F = 0, p = 1: a success with
`df_between = 2` and `df_within = 6 - 3 = 3`. -/
theorem class_light_level_anova_spec_witness :
    class_light_level_anova exAnovaChars exFOneway =
      AnovaResult.success 0 1 false ⟨2, 2, 2⟩ 2 3 ∧
    ((2 : ℤ) = 2 ∧
      (3 : ℤ) = ((classLightLevels 0 exAnovaChars).length +
        (classLightLevels 1 exAnovaChars).length +
        (classLightLevels 2 exAnovaChars).length : ℤ) - 3 ∧
      (⟨2, 2, 2⟩ : AnovaGroups) =
        ⟨(classLightLevels 0 exAnovaChars).length,
          (classLightLevels 1 exAnovaChars).length,
          (classLightLevels 2 exAnovaChars).length⟩) :=
  ⟨by decide,
    (class_light_level_anova_spec exAnovaChars exFOneway).2.2 0 1 false
      ⟨2, 2, 2⟩ 2 3 (by decide)⟩

end Vanguard
